import Mathlib

/-!
Verification of the Convergence review-aggregation pipeline.

This file gives a shallow embedding of the aggregation core of the
repository (`app/orchestrator/convergence.py`, `app/orchestrator/orchestrator.py`,
`app/agents/runner.py`) and proves the specified properties about it.

Modelling conventions
* Python dicts holding findings are modelled by the total structure `Finding`.
  A dict key that may be absent is modelled as a field whose value is the
  `.get` default used by the code that reads it (`""` for display strings,
  `none` for `original_severity` / `_finding_count`).  `app/agents/runner.py`
  normalises `id` and `line_end` before findings enter the pipeline.
* Python strings are compared and transformed code-point-wise; we model the
  relevant operations (`<`, `.upper()`, `.title()`, slicing, `startswith`)
  directly on the character list `String.data` by structural recursion, so
  every definition evaluates inside the kernel.
* `list.sort(key=...)` is Python's stable sort by key.  A stable sort is
  extensionally unique, so it is modelled by `List.insertionSort` (Mathlib's
  stable sort) over the key order `mergeOrder`.
* `defaultdict(list)` grouping with insertion-ordered keys is modelled as:
  keys in first-occurrence order (`dedupKeepFirst`), each group being the
  sublist of inputs with that key (`List.filter`), which is exactly the
  insertion-order behaviour of the Python loop.
* Where Python iterates over a `set` (whose order is unspecified) the model
  uses first-occurrence order; every such place is either immediately
  sorted afterwards or display-only.
* Floats appear only in display strings (`confidence`, durations); the
  `confidence` field is display-only, defaulted to `0.8` by every reader,
  and is rendered at that default here; durations are rendered with a
  decimal-shift model of the `:.1f` format.
-/

namespace Convergence

open List

/-- Code-point lexicographic comparison of character lists: the comparison
Python applies to strings.  Structural recursion so it evaluates in the kernel. -/
def charListLt : List Char → List Char → Bool
  | [], [] => false
  | [], _ :: _ => true
  | _ :: _, [] => false
  | a :: as, b :: bs =>
    if a.toNat < b.toNat then true
    else if b.toNat < a.toNat then false
    else charListLt as bs

/-- Python `a < b` on strings. -/
def strLt (a b : String) : Prop := charListLt a.data b.data = true

/-- Python `a <= b` on strings (total order, negation of `b < a`). -/
def strLe (a b : String) : Prop := charListLt b.data a.data = false

instance : DecidableRel strLt := fun a b => by unfold strLt; infer_instance

instance : DecidableRel strLe := fun a b => by unfold strLe; infer_instance

/-- Python `s.upper()` (task-kind labels are ASCII). -/
def pyUpper (s : String) : String := ⟨s.data.map Char.toUpper⟩

/-- Python `s.title()` for the single-word task-kind labels. -/
def pyTitle (s : String) : String :=
  match s.data with
  | [] => ⟨[]⟩
  | c :: cs => ⟨Char.toUpper c :: cs.map Char.toLower⟩

/-- Python `s[:3]` (slicing is by characters). -/
def pySlice3 (s : String) : String := ⟨s.data.take 3⟩

/-- Python `s.startswith("[")`. -/
def startsWithBracket (s : String) : Bool :=
  match s.data with
  | '[' :: _ => true
  | _ => false

/-- Deduplication keeping the first occurrence of each element, in order:
the key order of an insertion-ordered Python dict / defaultdict. -/
def dedupAux [DecidableEq α] : List α → List α → List α
  | [], _ => []
  | a :: l, seen => if a ∈ seen then dedupAux l seen else a :: dedupAux l (a :: seen)

/-- Elements of `l` in first-occurrence order, without duplicates. -/
def dedupKeepFirst [DecidableEq α] (l : List α) : List α := dedupAux l []

/-- One review finding (a dict in the source; see the conventions above).
`source`, `sources`, `merged`, `finding_count` model the bookkeeping keys
`_source`, `_sources`, `_merged`, `_finding_count`. -/
structure Finding where
  id : String := ""
  file_path : String := ""
  line_start : Nat := 0
  line_end : Nat := 0
  severity : Int := 0
  original_severity : Option Int := none
  category : String := ""
  title : String := ""
  description : String := ""
  suggestion : String := ""
  code_snippet : String := ""
  reasoning : String := ""
  source : String := ""
  sources : List String := []
  merged : Bool := false
  finding_count : Option Nat := none
  consensus_adjusted : Bool := false
deriving DecidableEq, Repr

/-- One cross-reference judgment (`app/orchestrator/cross_reference.py` stores
more bookkeeping keys; the consensus code reads exactly these). -/
structure CrossRef where
  target_finding_id : String := ""
  relationship : String := ""
  comment : String := ""
deriving DecidableEq, Repr

/-- The `location_key` function of `app/orchestrator/convergence.py` (lines 8-13):
`f"{file_path}:{line_start}-{line_end}"`. -/
def location_key (f : Finding) : String :=
  f.file_path ++ ":" ++ Nat.repr f.line_start ++ "-" ++ Nat.repr f.line_end

/-- The `findings_overlap` function (convergence.py lines 16-25). -/
def findings_overlap (f1 f2 : Finding) : Bool :=
  if f1.file_path ≠ f2.file_path then false
  else ¬ (f1.line_end < f2.line_start ∨ f2.line_end < f1.line_start)

/-- Flattening step of `merge_overlapping_findings` (convergence.py lines 38-43):
each finding is copied and tagged with its originating agent kind. -/
def flattenFindings (findings_by_agent : List (String × List Finding)) : List Finding :=
  findings_by_agent.flatMap (fun kv => kv.2.map (fun f => { f with source := kv.1 }))

/-- Grouping step of `merge_overlapping_findings` (convergence.py lines 48-52):
`defaultdict(list)` keyed by `location_key`, keys in first-occurrence order,
each group in input order. -/
def groupByLocation (l : List Finding) : List (String × List Finding) :=
  (dedupKeepFirst (l.map location_key)).map
    (fun k => (k, l.filter (fun f => location_key f = k)))

/-- Python `max(findings, key=lambda f: f.get("severity", 0))` on a non-empty
list: the first element of maximal severity. -/
def pyMaxBySeverity : List Finding → Finding
  | [] => {}
  | f :: fs => fs.foldl (fun b g => if g.severity > b.severity then g else b) f

/-- The source label the merge code reads from a finding:
`f.get("_source", "unknown")`, the default firing when the key is absent
(modelled as `""`). -/
def sourceOf (f : Finding) : String := if f.source = "" then "unknown" else f.source

/-- The description-combining loop of `merge_finding_group`
(convergence.py lines 106-113): keep the first occurrence of each distinct
non-empty description, prefixed with its source. -/
def collectDescriptions : List Finding → List String → List String
  | [], _ => []
  | f :: fs, seen =>
    if f.description ≠ "" ∧ f.description ∉ seen then
      ("**[" ++ pyTitle (sourceOf f) ++ "]** " ++ f.description)
        :: collectDescriptions fs (f.description :: seen)
    else collectDescriptions fs seen

/-- The `merge_finding_group` function (convergence.py lines 79-136).
Only ever called on groups of size ≥ 2 (Python `max` would raise on `[]`). -/
def merge_finding_group (findings : List Finding) : Finding :=
  let base := pyMaxBySeverity findings
  let sources := List.insertionSort strLe (dedupKeepFirst (findings.map sourceOf))
  let original_severity := base.severity
  let boosted_severity := min (original_severity + 1) 5
  let categories := dedupKeepFirst
    ((findings.filter (fun f => f.category ≠ "")).map (fun f => f.category))
  let combined_category :=
    if categories.length > 1 then String.intercalate "+" categories else base.category
  let source_str := String.intercalate "+" (sources.map (fun s => pySlice3 (pyUpper s)))
  let merged_title := "[" ++ source_str ++ "] " ++ base.title
  let combined_description := String.intercalate "\n\n" (collectDescriptions findings [])
  let suggestions := dedupKeepFirst
    ((findings.filter (fun f => f.suggestion ≠ "")).map (fun f => f.suggestion))
  let combined_suggestion :=
    if suggestions ≠ [] then String.intercalate " | " suggestions else base.suggestion
  { id := "merged-" ++ base.id
    file_path := base.file_path
    line_start := base.line_start
    line_end := base.line_end
    severity := boosted_severity
    original_severity := some original_severity
    category := combined_category
    title := merged_title
    description := combined_description
    suggestion := combined_suggestion
    code_snippet := base.code_snippet
    sources := sources
    merged := true
    finding_count := some findings.length }

/-- Sort key order of `merge_overlapping_findings` (convergence.py lines 68-73):
the Python key `(-severity, file_path, line_start)` compared lexicographically. -/
def mergeOrder (f g : Finding) : Prop :=
  g.severity < f.severity ∨
    (f.severity = g.severity ∧
      (strLt f.file_path g.file_path ∨
        (f.file_path = g.file_path ∧ f.line_start ≤ g.line_start)))

instance : DecidableRel mergeOrder := fun f g => by unfold mergeOrder; infer_instance

/-- The merge pass applied to one location group: groups of size 1 pass through
(with `_sources`/`_merged` set), larger groups go through `merge_finding_group`
(convergence.py lines 56-66). -/
def mergeGroup (kg : String × List Finding) : Finding :=
  match kg.2 with
  | [f] => { f with sources := [f.source], merged := false }
  | fs => merge_finding_group fs

/-- The `merge_overlapping_findings` function (convergence.py lines 28-76). -/
def merge_overlapping_findings (findings_by_agent : List (String × List Finding)) :
    List Finding :=
  let all_findings := flattenFindings findings_by_agent
  if all_findings.isEmpty then []
  else
    let merged := (groupByLocation all_findings).map mergeGroup
    List.insertionSort mergeOrder merged

/-- The pre-sort merged list (groups in first-occurrence order, one output
finding per group): the `merged` accumulator of `merge_overlapping_findings`
just before the final sort. -/
def premergeList (findings_by_agent : List (String × List Finding)) : List Finding :=
  (groupByLocation (flattenFindings findings_by_agent)).map mergeGroup

/-- Maximum severity of a non-empty finding list (the value Python's
`max(..., key=severity)` maximises). -/
def maxSeverity : List Finding → Int
  | [] => 0
  | f :: fs => fs.foldl (fun a g => max a g.severity) f.severity

/-- The counting loop of `calculate_consensus_severity` (convergence.py
lines 229-242): `(reinforce_count, extend_count, conflict_count)`. -/
def countRefs (finding_id : String) (cross_refs : List CrossRef) : Nat × Nat × Nat :=
  cross_refs.foldl
    (fun acc c =>
      if c.target_finding_id = finding_id then
        if c.relationship = "reinforce" then (acc.1 + 1, acc.2.1, acc.2.2)
        else if c.relationship = "extend" then (acc.1, acc.2.1 + 1, acc.2.2)
        else if c.relationship = "conflict" then (acc.1, acc.2.1, acc.2.2 + 1)
        else acc
      else acc)
    (0, 0, 0)

/-- The `calculate_consensus_severity` function (convergence.py lines 215-265). -/
def calculate_consensus_severity (finding : Finding) (cross_refs : List CrossRef) : Int :=
  let original_severity := finding.severity
  let finding_id := finding.id
  if cross_refs.isEmpty then original_severity
  else
    let counts := countRefs finding_id cross_refs
    let reinforce_count := counts.1
    let extend_count := counts.2.1
    let conflict_count := counts.2.2
    if conflict_count > 0 then original_severity
    else if reinforce_count ≥ 3 then min (original_severity + 2) 5
    else if reinforce_count ≥ 2 then min (original_severity + 1) 5
    else if extend_count ≥ 2 then min (original_severity + 1) 5
    else original_severity

/-- The `apply_consensus_to_findings` function (convergence.py lines 268-288). -/
def apply_consensus_to_findings (findings : List Finding) (cross_refs : List CrossRef) :
    List Finding :=
  findings.map (fun finding =>
    let original_severity := finding.severity
    let consensus_severity := calculate_consensus_severity finding cross_refs
    let adjusted := { finding with
      original_severity := some original_severity
      severity := consensus_severity }
    if consensus_severity ≠ original_severity then
      { adjusted with consensus_adjusted := true }
    else adjusted)

/-- Dictionary lookup of the five severity emoji (convergence.py line 298);
every severity outside {2,3,4,5} — including 1 — maps to the dict's ⚪/default. -/
def severityEmoji (s : Int) : String :=
  if s = 5 then "🔴" else if s = 4 then "🟠" else if s = 3 then "🟡"
  else if s = 2 then "🔵" else "⚪"

/-- The confidence annotation (convergence.py lines 308-314).  All three
branches of the source produce the same f-string; `confidence` is display-only
and defaulted to `0.8` by the reader, rendered here at that default. -/
def confidenceStr : String := " (80% confidence)"

/-- The `format_finding_markdown` function (convergence.py lines 291-378). -/
def format_finding_markdown (finding : Finding) : List String :=
  let sources :=
    match finding.sources with
    | [] => [sourceOf finding]
    | ss => ss
  let source_str := String.intercalate "+" (sources.map (fun s => pySlice3 (pyUpper s)))
  let severity := finding.severity
  let display_title :=
    if startsWithBracket finding.title then finding.title
    else "[" ++ source_str ++ "] " ++ finding.title
  let consensus_indicator := if finding.consensus_adjusted then " ⚡" else ""
  let line_info :=
    if finding.line_start = finding.line_end then "Line " ++ Nat.repr finding.line_start
    else "Lines " ++ Nat.repr finding.line_start ++ "-" ++ Nat.repr finding.line_end
  ["#### " ++ severityEmoji severity ++ " " ++ display_title
      ++ confidenceStr ++ consensus_indicator,
    "📁 `" ++ finding.file_path ++ "` • " ++ line_info,
    ""]
  ++ (if finding.description ≠ "" then [finding.description, ""] else [])
  ++ (if finding.reasoning ≠ "" then ["**🧠 Reasoning:** " ++ finding.reasoning, ""] else [])
  ++ (if finding.code_snippet ≠ "" then ["```", finding.code_snippet, "```", ""] else [])
  ++ (if finding.suggestion ≠ ""
      then ["**💡 Suggestion:** " ++ finding.suggestion, ""] else [])
  ++ (if finding.merged then
        ["*⚡ Flagged by " ++ Nat.repr (finding.finding_count.getD sources.length)
            ++ " agents: " ++ String.intercalate ", " sources ++ "*", ""]
      else [])
  ++ (if finding.consensus_adjusted then
        ["*📈 Severity adjusted by consensus: "
            ++ Int.repr (finding.original_severity.getD severity)
            ++ " → " ++ Int.repr severity ++ "*", ""]
      else [])
  ++ ["---", ""]

/-- Critical/high bucket of the Report Synthesizer (convergence.py line 160). -/
def criticalOf (findings : List Finding) : List Finding :=
  findings.filter (fun f => 4 ≤ f.severity)

/-- Medium bucket (convergence.py line 161). -/
def mediumOf (findings : List Finding) : List Finding :=
  findings.filter (fun f => 2 ≤ f.severity ∧ f.severity < 4)

/-- Low/info bucket (convergence.py line 162). -/
def lowOf (findings : List Finding) : List Finding :=
  findings.filter (fun f => f.severity < 2)

/-- One-decimal rendering of `duration_ms/1000` seconds: the f-string
`:.1f` format, modelled by shifting to tenths of a second with rounding
(the format rounds half-to-even; display-only). -/
def durStr (ms : Nat) : String :=
  let t := (ms + 50) / 100
  Nat.repr (t / 10) ++ "." ++ Nat.repr (t % 10)

/-- Line list built by `synthesize_markdown` (convergence.py lines 149-210)
before the final `"\n".join`. -/
def synthLines (pr_title pr_url : String) (findings : List Finding)
    (agents_completed : List String) (duration_ms : Nat) : List String :=
  let critical := criticalOf findings
  let medium := mediumOf findings
  let low := lowOf findings
  ["## 🔍 Convergence Code Review",
    "",
    "**PR:** [" ++ pr_title ++ "](" ++ pr_url ++ ")",
    "**Analyzed by:** " ++ Nat.repr agents_completed.length ++ " agents in "
      ++ durStr duration_ms ++ "s",
    "",
    "---",
    ""]
  ++ (if critical.isEmpty then []
      else ("### 🚨 Critical Issues (" ++ Nat.repr critical.length ++ ")") :: "" ::
        critical.flatMap format_finding_markdown)
  ++ (if medium.isEmpty then []
      else ("### ⚠️ Recommendations (" ++ Nat.repr medium.length ++ ")") :: "" ::
        medium.flatMap format_finding_markdown)
  ++ (if low.isEmpty then []
      else ("### 💡 Suggestions (" ++ Nat.repr low.length ++ ")") :: "" ::
        low.flatMap format_finding_markdown)
  ++ (if findings.isEmpty then
        ["### ✅ No Issues Found",
          "",
          "This PR looks good! No significant issues detected by our analysis.",
          ""]
      else [])
  ++ ["---",
    "",
    "### 📊 Summary",
    "",
    "| Severity | Count |",
    "|----------|-------|",
    "| 🚨 Critical/High | " ++ Nat.repr critical.length ++ " |",
    "| ⚠️ Medium | " ++ Nat.repr medium.length ++ " |",
    "| 💡 Low/Info | " ++ Nat.repr low.length ++ " |",
    "| **Total** | **" ++ Nat.repr findings.length ++ "** |",
    "",
    "---",
    "",
    "<sub>🤖 Reviewed by **Convergence** • Agents: ["
      ++ String.intercalate ", " (agents_completed.map pyTitle) ++ "] • "
      ++ durStr duration_ms ++ "s</sub>"]

/-- The `synthesize_markdown` function (convergence.py lines 139-212). -/
def synthesize_markdown (pr_title pr_url : String) (findings : List Finding)
    (agents_completed : List String) (duration_ms : Nat) : String :=
  String.intercalate "\n" (synthLines pr_title pr_url findings agents_completed duration_ms)

/-- The fixed registry of task kinds (`AGENT_CLASSES` in app/agents/runner.py). -/
def AGENT_KINDS : List String :=
  ["security", "performance", "testing", "architecture", "documentation"]

/-- Parsed agent output: the `{"findings": [...], "summary": ...}` dict. -/
structure FindingsData where
  findings : List Finding := []
  summary : String := ""
deriving DecidableEq, Repr

/-- Outcome of one agent's backend call plus response parse: success, a JSON
parse failure (`json.JSONDecodeError`), or any other raised error. -/
inductive AgentOutcome where
  | ok (data : FindingsData)
  | parseError (msg : String)
  | backendError (msg : String)
deriving DecidableEq, Repr

/-- Python `f"{n:03d}"`. -/
def pad3 (n : Nat) : String :=
  let s := Nat.repr n
  if s.length < 3 then ⟨List.replicate (3 - s.data.length) '0'⟩ ++ s else s

/-- The id-normalisation loop of `run_agent` (runner.py lines 99-106): a
finding with no id (modelled as `""`) gets `f"{agent_type[:3]}-{i+1:03d}"`.
(The `line_end` default is already reflected by the total `line_end` field.) -/
def ensureIds (agent_type : String) (findings : List Finding) : List Finding :=
  findings.enum.map (fun p =>
    if p.2.id = "" then
      { p.2 with id := pySlice3 agent_type ++ "-" ++ pad3 (p.1 + 1) }
    else p.2)

/-- Pure core of `run_agent` (runner.py lines 45-139): an unknown agent type
raises (propagated to the dispatcher's `gather`); otherwise backend/parse
failures degrade to an empty finding list with a captured error summary, and
the findings are id-normalised. -/
def run_agent (agent_type : String) (outcome : String → AgentOutcome) :
    Except String FindingsData :=
  if agent_type ∉ AGENT_KINDS then
    Except.error ("Unknown agent type: " ++ agent_type)
  else
    let findings_data :=
      match outcome agent_type with
      | AgentOutcome.ok data => data
      | AgentOutcome.parseError e =>
          { findings := [], summary := "Error parsing response: " ++ e }
      | AgentOutcome.backendError e =>
          { findings := [], summary := "Error: " ++ e }
    Except.ok { findings_data with
      findings := ensureIds agent_type findings_data.findings }

/-- The per-task result as the dispatcher records it: `gather` catches any
exception and degrades it (runner.py lines 184-189). -/
def dispatchResult (agent_type : String) (outcome : String → AgentOutcome) : FindingsData :=
  match run_agent agent_type outcome with
  | Except.ok d => d
  | Except.error e => { findings := [], summary := "Error: " ++ e }

/-- Insertion/update into an insertion-ordered dict: an existing key keeps its
position, a new key is appended. -/
def assocUpsert (m : List (String × FindingsData)) (k : String) (v : FindingsData) :
    List (String × FindingsData) :=
  if k ∈ m.map Prod.fst then
    m.map (fun kv => if kv.1 = k then (k, v) else kv)
  else m ++ [(k, v)]

/-- Dict lookup. -/
def assocGet (m : List (String × FindingsData)) (k : String) : Option FindingsData :=
  (m.find? (fun kv => kv.1 = k)).map Prod.snd

/-- Pure core of `run_all_agents` (runner.py lines 142-191): one task per kind,
results collected into an insertion-ordered dict; a task's exception is
converted to a degraded empty result. -/
def run_all_agents (agent_types : List String) (outcome : String → AgentOutcome) :
    List (String × FindingsData) :=
  agent_types.foldl (fun acc k => assocUpsert acc k (dispatchResult k outcome)) []

/-- Observable outcome of one `orchestrate_review` run past the dispatcher. -/
structure OrchestratorResult where
  merged_findings : List Finding
  review_markdown : String
  critical_count : Nat
  event : String
  statuses : List String
deriving Repr

/-- Pure core of `orchestrate_review` (orchestrator.py lines 70-185), from the
dispatcher's settled results onward: collect findings per agent, merge them,
synthesize the report from the merged findings, choose the review event, and
record the session statuses written ("converging", then "complete"). -/
def orchestrate_review (pr_title pr_url : String)
    (agent_results : List (String × FindingsData)) (duration_ms : Nat) :
    OrchestratorResult :=
  let agents_completed := agent_results.map Prod.fst
  let findings_by_agent := agent_results.map (fun kv => (kv.1, kv.2.findings))
  let merged_findings := merge_overlapping_findings findings_by_agent
  let review_markdown :=
    synthesize_markdown pr_title pr_url merged_findings agents_completed duration_ms
  let critical_count := (merged_findings.filter (fun f => 4 ≤ f.severity)).length
  let event := if critical_count > 0 then "REQUEST_CHANGES" else "COMMENT"
  { merged_findings := merged_findings
    review_markdown := review_markdown
    critical_count := critical_count
    event := event
    statuses := ["converging", "complete"] }

/-- Numeric value of a decimal digit character (used to invert `Nat.repr`). -/
def charVal (c : Char) : Nat := c.toNat - '0'.toNat

/-- Value of a decimal digit string (used to invert `Nat.repr`). -/
def digitsVal (l : List Char) : Nat := l.foldl (fun a c => 10 * a + charVal c) 0

/-! ### Order facts for the code-point comparison -/

theorem charListLt_cons (x y : Char) (xs ys : List Char) :
    charListLt (x :: xs) (y :: ys) =
      (decide (x.toNat < y.toNat) || (decide (x.toNat = y.toNat) && charListLt xs ys)) := by
  simp only [charListLt]
  by_cases h1 : x.toNat < y.toNat
  · simp [h1]
  · by_cases h2 : y.toNat < x.toNat
    · simp [h1, h2]
      omega
    · have h3 : x.toNat = y.toNat := by omega
      simp [h1, h2, h3]

theorem charListLt_irrefl (a : List Char) : charListLt a a = false := by
  induction a with
  | nil => rfl
  | cons c cs ih => simp [charListLt_cons, ih]

theorem charListLt_asymm {a b : List Char} (h : charListLt a b = true) :
    charListLt b a = false := by
  induction a generalizing b with
  | nil =>
    cases b with
    | nil => simp [charListLt] at h
    | cons y ys => simp [charListLt]
  | cons x xs ih =>
    cases b with
    | nil => simp [charListLt] at h
    | cons y ys =>
      rw [charListLt_cons] at h ⊢
      simp only [Bool.or_eq_true, Bool.and_eq_true, decide_eq_true_eq] at h
      rcases h with h | ⟨he, h⟩
      · simp [show ¬ y.toNat < x.toNat by omega, show ¬ y.toNat = x.toNat by omega]
      · simp [show ¬ y.toNat < x.toNat by omega, he.symm, ih h]

theorem charListLt_trans {a b c : List Char} (h1 : charListLt a b = true)
    (h2 : charListLt b c = true) : charListLt a c = true := by
  induction a generalizing b c with
  | nil =>
    cases b with
    | nil => simp [charListLt] at h1
    | cons y ys =>
      cases c with
      | nil => simp [charListLt] at h2
      | cons z zs => simp [charListLt]
  | cons x xs ih =>
    cases b with
    | nil => simp [charListLt] at h1
    | cons y ys =>
      cases c with
      | nil => simp [charListLt] at h2
      | cons z zs =>
        rw [charListLt_cons] at h1 h2 ⊢
        simp only [Bool.or_eq_true, Bool.and_eq_true, decide_eq_true_eq] at h1 h2 ⊢
        rcases h1 with h1 | ⟨e1, h1⟩ <;> rcases h2 with h2 | ⟨e2, h2⟩
        · left; omega
        · left; omega
        · left; omega
        · right; exact ⟨by omega, ih h1 h2⟩

theorem charListLt_conn {a b : List Char} (h1 : charListLt a b = false)
    (h2 : charListLt b a = false) : a = b := by
  induction a generalizing b with
  | nil =>
    cases b with
    | nil => rfl
    | cons y ys => simp [charListLt] at h1
  | cons x xs ih =>
    cases b with
    | nil => simp [charListLt] at h2
    | cons y ys =>
      rw [charListLt_cons] at h1 h2
      simp only [Bool.or_eq_false_iff, Bool.and_eq_false_iff, decide_eq_false_iff_not] at h1 h2
      obtain ⟨hn1, h1'⟩ := h1
      obtain ⟨hn2, h2'⟩ := h2
      have hnat : x.toNat = y.toNat := by omega
      have he : x = y := Char.eq_of_val_eq (UInt32.toNat.inj hnat)
      rcases h1' with h1' | h1'
      · omega
      · rcases h2' with h2' | h2'
        · omega
        · rw [he, ih h1' h2']

theorem strLt_or_eq_or_gt (a b : String) : strLt a b ∨ a = b ∨ strLt b a := by
  unfold strLt
  rcases h1 : charListLt a.data b.data with _ | _
  · rcases h2 : charListLt b.data a.data with _ | _
    · right; left
      exact String.toList_inj.mp (charListLt_conn h1 h2)
    · right; right; rfl
  · left; rfl

theorem strLt_asymm {a b : String} (h : strLt a b) : ¬ strLt b a := by
  unfold strLt at *
  simp [charListLt_asymm h]

theorem strLt_trans {a b c : String} (h1 : strLt a b) (h2 : strLt b c) : strLt a c :=
  charListLt_trans h1 h2

theorem strLt_irrefl (a : String) : ¬ strLt a a := by
  unfold strLt
  simp [charListLt_irrefl]

theorem strLe_iff (a b : String) : strLe a b ↔ ¬ strLt b a := by
  unfold strLe strLt
  simp

instance : IsTotal String strLe where
  total a b := by
    rw [strLe_iff, strLe_iff]
    rcases strLt_or_eq_or_gt a b with h | h | h
    · left; exact strLt_asymm h
    · left; subst h; exact strLt_irrefl a
    · right; exact strLt_asymm h

instance : IsTrans String strLe where
  trans a b c h1 h2 := by
    rw [strLe_iff] at *
    intro hca
    rcases strLt_or_eq_or_gt b c with h | h | h
    · exact h1 (strLt_trans h hca)
    · exact h1 (h ▸ hca)
    · exact h2 h

instance : IsTotal Finding mergeOrder where
  total f g := by
    unfold mergeOrder
    rcases lt_trichotomy f.severity g.severity with h | h | h
    · right; left; exact h
    · rcases strLt_or_eq_or_gt f.file_path g.file_path with h2 | h2 | h2
      · left; right; exact ⟨h, Or.inl h2⟩
      · rcases Nat.le_total f.line_start g.line_start with h3 | h3
        · left; right; exact ⟨h, Or.inr ⟨h2, h3⟩⟩
        · right; right; exact ⟨h.symm, Or.inr ⟨h2.symm, h3⟩⟩
      · right; right; exact ⟨h.symm, Or.inl h2⟩
    · left; left; exact h

instance : IsTrans Finding mergeOrder where
  trans f g h hfg hgh := by
    unfold mergeOrder at *
    rcases hfg with h1 | ⟨e1, h1⟩ <;> rcases hgh with h2 | ⟨e2, h2⟩
    · left; omega
    · left; omega
    · left; omega
    · right
      refine ⟨e1.trans e2, ?_⟩
      rcases h1 with h3 | ⟨e3, h3⟩ <;> rcases h2 with h4 | ⟨e4, h4⟩
      · left; exact strLt_trans h3 h4
      · left; exact e4 ▸ h3
      · left; exact e3 ▸ h4
      · right; exact ⟨e3.trans e4, le_trans h3 h4⟩

/-- Equal sort keys are related by `mergeOrder` (it is reflexive on keys). -/
theorem mergeOrder_of_eq_key {f g : Finding} (hs : f.severity = g.severity)
    (hp : f.file_path = g.file_path) (hl : f.line_start = g.line_start) :
    mergeOrder f g :=
  Or.inr ⟨hs, Or.inr ⟨hp, le_of_eq hl⟩⟩

/-! ### Deduplication and grouping -/

theorem mem_dedupAux [DecidableEq α] (l : List α) :
    ∀ seen x, x ∈ dedupAux l seen ↔ x ∈ l ∧ x ∉ seen := by
  induction l with
  | nil => intro seen x; simp [dedupAux]
  | cons a t ih =>
    intro seen x
    simp only [dedupAux]
    by_cases ha : a ∈ seen
    · simp only [ha, if_true, ih, List.mem_cons]
      constructor
      · rintro ⟨hx, hn⟩
        exact ⟨Or.inr hx, hn⟩
      · rintro ⟨rfl | hx, hn⟩
        · exact absurd ha hn
        · exact ⟨hx, hn⟩
    · simp only [ha, if_false, List.mem_cons, ih, not_or]
      constructor
      · rintro (rfl | ⟨hx, _, hn⟩)
        · exact ⟨Or.inl rfl, ha⟩
        · exact ⟨Or.inr hx, hn⟩
      · rintro ⟨rfl | hx, hn⟩
        · exact Or.inl rfl
        · by_cases hxa : x = a
          · exact Or.inl hxa
          · exact Or.inr ⟨hx, hxa, hn⟩

theorem nodup_dedupAux [DecidableEq α] (l : List α) :
    ∀ seen, (dedupAux l seen).Nodup := by
  induction l with
  | nil => intro seen; simp [dedupAux]
  | cons a t ih =>
    intro seen
    simp only [dedupAux]
    by_cases ha : a ∈ seen
    · simp [ha, ih]
    · simp only [ha, if_false, List.nodup_cons]
      refine ⟨fun hmem => ?_, ih _⟩
      rw [mem_dedupAux] at hmem
      exact hmem.2 (List.mem_cons_self a seen)

theorem dedupAux_eq_self [DecidableEq α] (l : List α) :
    ∀ seen, l.Nodup → (∀ x ∈ l, x ∉ seen) → dedupAux l seen = l := by
  induction l with
  | nil => intro seen _ _; rfl
  | cons a t ih =>
    intro seen hnd hdisj
    simp only [dedupAux, hdisj a (List.mem_cons_self a t), if_false]
    rw [List.nodup_cons] at hnd
    congr 1
    refine ih _ hnd.2 (fun x hx => ?_)
    simp only [List.mem_cons, not_or]
    exact ⟨fun he => hnd.1 (he ▸ hx), hdisj x (List.mem_cons_of_mem a hx)⟩

theorem mem_dedupKeepFirst [DecidableEq α] {l : List α} {x : α} :
    x ∈ dedupKeepFirst l ↔ x ∈ l := by
  unfold dedupKeepFirst
  rw [mem_dedupAux]
  simp

theorem nodup_dedupKeepFirst [DecidableEq α] (l : List α) : (dedupKeepFirst l).Nodup :=
  nodup_dedupAux l []

theorem dedupKeepFirst_eq_self [DecidableEq α] {l : List α} (h : l.Nodup) :
    dedupKeepFirst l = l :=
  dedupAux_eq_self l [] h (fun x _ => List.not_mem_nil x)

/-! ### Structure of the grouping and merge passes -/

theorem groupByLocation_keys (l : List Finding) :
    (groupByLocation l).map Prod.fst = dedupKeepFirst (l.map location_key) := by
  unfold groupByLocation
  rw [List.map_map]
  exact List.map_id _

theorem mem_group_iff {l : List Finding} {kg : String × List Finding}
    (hkg : kg ∈ groupByLocation l) {f : Finding} :
    f ∈ kg.2 ↔ f ∈ l ∧ location_key f = kg.1 := by
  unfold groupByLocation at hkg
  obtain ⟨k, _, rfl⟩ := List.mem_map.mp hkg
  simp [List.mem_filter]

theorem group_nonempty {l : List Finding} {kg : String × List Finding}
    (hkg : kg ∈ groupByLocation l) : kg.2 ≠ [] := by
  unfold groupByLocation at hkg
  obtain ⟨k, hk, rfl⟩ := List.mem_map.mp hkg
  obtain ⟨f, hf, rfl⟩ := List.mem_map.mp (mem_dedupKeepFirst.mp hk)
  intro hnil
  have hmem : f ∈ l.filter (fun g => location_key g = location_key f) :=
    List.mem_filter.mpr ⟨hf, by simp⟩
  have h2 : l.filter (fun g => location_key g = location_key f) = [] := hnil
  rw [h2] at hmem
  exact List.not_mem_nil f hmem

theorem exists_group_of_mem {l : List Finding} {f : Finding} (hf : f ∈ l) :
    ∃ kg ∈ groupByLocation l, f ∈ kg.2 := by
  refine ⟨(location_key f, l.filter (fun g => location_key g = location_key f)), ?_, ?_⟩
  · unfold groupByLocation
    exact List.mem_map.mpr ⟨location_key f,
      mem_dedupKeepFirst.mpr (List.mem_map.mpr ⟨f, hf, rfl⟩), rfl⟩
  · exact List.mem_filter.mpr ⟨hf, by simp⟩

/-- `location_key` only reads the location triple. -/
theorem location_key_congr {f g : Finding} (hp : f.file_path = g.file_path)
    (hs : f.line_start = g.line_start) (he : f.line_end = g.line_end) :
    location_key f = location_key g := by
  unfold location_key
  rw [hp, hs, he]

theorem pyMaxFold_mem : ∀ (t : List Finding) (b : Finding),
    t.foldl (fun b g => if g.severity > b.severity then g else b) b = b ∨
    t.foldl (fun b g => if g.severity > b.severity then g else b) b ∈ t := by
  intro t
  induction t with
  | nil => intro b; exact Or.inl rfl
  | cons g t ih =>
    intro b
    simp only [List.foldl_cons]
    by_cases h : g.severity > b.severity
    · simp only [h, if_true]
      rcases ih g with hh | hh
      · refine Or.inr ?_
        rw [hh]
        exact List.mem_cons_self g t
      · exact Or.inr (List.mem_cons_of_mem g hh)
    · simp only [h, if_false]
      rcases ih b with hh | hh
      · exact Or.inl hh
      · exact Or.inr (List.mem_cons_of_mem g hh)

theorem pyMaxBySeverity_mem : ∀ {fs : List Finding}, fs ≠ [] → pyMaxBySeverity fs ∈ fs := by
  intro fs hne
  match fs with
  | f :: t =>
    show t.foldl (fun b g => if g.severity > b.severity then g else b) f ∈ f :: t
    rcases pyMaxFold_mem t f with hh | hh
    · rw [hh]
      exact List.mem_cons_self f t
    · exact List.mem_cons_of_mem f hh

theorem pyMaxFold_severity : ∀ (t : List Finding) (b : Finding),
    (t.foldl (fun b g => if g.severity > b.severity then g else b) b).severity =
      t.foldl (fun a g => max a g.severity) b.severity := by
  intro t
  induction t with
  | nil => intro b; rfl
  | cons g t ih =>
    intro b
    simp only [List.foldl_cons]
    rw [ih]
    congr 1
    by_cases h : g.severity > b.severity
    · simp only [h, if_true]
      omega
    · simp only [h, if_false]
      omega

theorem pyMaxBySeverity_severity (f : Finding) (t : List Finding) :
    (pyMaxBySeverity (f :: t)).severity = maxSeverity (f :: t) :=
  pyMaxFold_severity t f

theorem maxFold_le_self : ∀ (t : List Finding) (a : Int),
    a ≤ t.foldl (fun a g => max a g.severity) a := by
  intro t
  induction t with
  | nil => intro a; exact le_refl a
  | cons g t ih =>
    intro a
    simp only [List.foldl_cons]
    exact le_trans (le_max_left a g.severity) (ih _)

theorem maxFold_ge : ∀ (t : List Finding) (a : Int) (g : Finding), g ∈ t →
    g.severity ≤ t.foldl (fun a g => max a g.severity) a := by
  intro t
  induction t with
  | nil => intro a g h; exact absurd h (List.not_mem_nil g)
  | cons f t ih =>
    intro a g hg
    simp only [List.foldl_cons]
    rcases List.mem_cons.mp hg with rfl | hg
    · exact le_trans (le_max_right a g.severity) (maxFold_le_self t _)
    · exact ih _ g hg

theorem maxSeverity_ge (f : Finding) (t : List Finding) (g : Finding)
    (hg : g ∈ f :: t) : g.severity ≤ maxSeverity (f :: t) := by
  show g.severity ≤ t.foldl (fun a g => max a g.severity) f.severity
  rcases List.mem_cons.mp hg with rfl | hg
  · exact maxFold_le_self t g.severity
  · exact maxFold_ge t f.severity g hg

/-- The merge engine is the stable sort of the per-group merge results. -/
theorem merge_eq_sort_premerge (X : List (String × List Finding)) :
    merge_overlapping_findings X = List.insertionSort mergeOrder (premergeList X) := by
  unfold merge_overlapping_findings premergeList
  by_cases h : (flattenFindings X).isEmpty
  · rw [if_pos h]
    rw [List.isEmpty_iff] at h
    rw [h]
    rfl
  · rw [if_neg h]

/-- Output of `mergeGroup` on a group keeps the group's location key. -/
theorem mergeGroup_key {l : List Finding} {kg : String × List Finding}
    (hkg : kg ∈ groupByLocation l) : location_key (mergeGroup kg) = kg.1 := by
  unfold mergeGroup
  match hm : kg.2 with
  | [f] =>
    have hf : f ∈ kg.2 := by rw [hm]; exact List.mem_singleton_self f
    have := (mem_group_iff hkg).mp hf
    exact this.2
  | [] => exact absurd hm (group_nonempty hkg)
  | f :: g :: t =>
    have hbase : pyMaxBySeverity (f :: g :: t) ∈ kg.2 := by
      rw [hm]
      exact pyMaxBySeverity_mem (by simp)
    have hkey := ((mem_group_iff hkg).mp hbase).2
    rw [← hkey]
    exact location_key_congr rfl rfl rfl

/-- Keys of the pre-sort merged list are exactly the group keys, hence nodup. -/
theorem premergeList_keys (X : List (String × List Finding)) :
    (premergeList X).map location_key =
      dedupKeepFirst ((flattenFindings X).map location_key) := by
  unfold premergeList
  rw [List.map_map, ← groupByLocation_keys]
  exact List.map_congr_left (fun kg hkg => mergeGroup_key hkg)

theorem premergeList_keys_nodup (X : List (String × List Finding)) :
    ((premergeList X).map location_key).Nodup := by
  rw [premergeList_keys]
  exact nodup_dedupKeepFirst _

theorem merge_keys_nodup (X : List (String × List Finding)) :
    ((merge_overlapping_findings X).map location_key).Nodup := by
  rw [merge_eq_sort_premerge]
  have hperm : List.insertionSort mergeOrder (premergeList X) ~ premergeList X :=
    List.perm_insertionSort mergeOrder (premergeList X)
  exact ((hperm.map location_key).nodup_iff).mpr (premergeList_keys_nodup X)

theorem merge_sorted (X : List (String × List Finding)) :
    List.Sorted mergeOrder (merge_overlapping_findings X) := by
  rw [merge_eq_sort_premerge]
  exact List.sorted_insertionSort mergeOrder (premergeList X)

/-! ### Decimal rendering facts: `Nat.repr` produces a non-empty all-digit
string and is injective, so `location_key` is injective in the location triple. -/

theorem toDigitsCore_append (b fuel n : Nat) (ds : List Char) :
    Nat.toDigitsCore b fuel n ds = Nat.toDigitsCore b fuel n [] ++ ds := by
  induction fuel generalizing n ds with
  | zero => simp [Nat.toDigitsCore]
  | succ f ih =>
    simp only [Nat.toDigitsCore]
    split
    · rfl
    · rw [ih (n / b) (Nat.digitChar (n % b) :: ds), ih (n / b) [Nat.digitChar (n % b)]]
      simp

theorem digitChar_isDigit {d : Nat} (h : d < 10) : (Nat.digitChar d).isDigit := by
  interval_cases d <;> decide

theorem charVal_digitChar {d : Nat} (h : d < 10) : charVal (Nat.digitChar d) = d := by
  interval_cases d <;> decide

theorem toDigitsCore_digits (fuel : Nat) :
    ∀ (n : Nat), ∀ c ∈ Nat.toDigitsCore 10 fuel n [], c.isDigit := by
  induction fuel with
  | zero => intro n c hc; simp [Nat.toDigitsCore] at hc
  | succ f ih =>
    intro n c hc
    simp only [Nat.toDigitsCore] at hc
    by_cases h : n / 10 = 0
    · rw [if_pos h] at hc
      rcases List.mem_singleton.mp hc with rfl
      exact digitChar_isDigit (Nat.mod_lt n (by omega))
    · rw [if_neg h, toDigitsCore_append] at hc
      rcases List.mem_append.mp hc with hc | hc
      · exact ih _ c hc
      · rcases List.mem_singleton.mp hc with rfl
        exact digitChar_isDigit (Nat.mod_lt n (by omega))

theorem digitsVal_append_singleton (l : List Char) (c : Char) :
    digitsVal (l ++ [c]) = 10 * digitsVal l + charVal c := by
  unfold digitsVal
  rw [List.foldl_append]
  rfl

theorem digitsVal_toDigitsCore :
    ∀ (fuel n : Nat), n < fuel → digitsVal (Nat.toDigitsCore 10 fuel n []) = n := by
  intro fuel
  induction fuel with
  | zero => intro n h; omega
  | succ f ih =>
    intro n h
    simp only [Nat.toDigitsCore]
    by_cases hz : n / 10 = 0
    · rw [if_pos hz]
      have h10 : n % 10 < 10 := Nat.mod_lt n (by omega)
      have : digitsVal [Nat.digitChar (n % 10)] = charVal (Nat.digitChar (n % 10)) := by
        unfold digitsVal
        simp
      rw [this, charVal_digitChar h10]
      omega
    · rw [if_neg hz, toDigitsCore_append, digitsVal_append_singleton,
        ih (n / 10) (by omega), charVal_digitChar (Nat.mod_lt n (by omega))]
      omega

theorem repr_data (n : Nat) :
    (Nat.repr n).data = Nat.toDigitsCore 10 (n + 1) n [] := rfl

theorem repr_digits (n : Nat) : ∀ c ∈ (Nat.repr n).data, c.isDigit := by
  rw [repr_data]
  exact toDigitsCore_digits (n + 1) n

theorem repr_ne_nil (n : Nat) : (Nat.repr n).data ≠ [] := by
  rw [repr_data]
  simp only [Nat.toDigitsCore]
  split
  · simp
  · rw [toDigitsCore_append]
    simp

theorem repr_inj {m n : Nat} (h : Nat.repr m = Nat.repr n) : m = n := by
  have hd := congrArg String.data h
  rw [repr_data, repr_data] at hd
  have hm := digitsVal_toDigitsCore (m + 1) m (by omega)
  have hn := digitsVal_toDigitsCore (n + 1) n (by omega)
  rw [← hm, ← hn, hd]

theorem digit_sep_inj {sep : Char} (hsep : sep.isDigit = false) :
    ∀ (d1 d2 r1 r2 : List Char), (∀ c ∈ d1, c.isDigit) → (∀ c ∈ d2, c.isDigit) →
      d1 ++ sep :: r1 = d2 ++ sep :: r2 → d1 = d2 ∧ r1 = r2 := by
  intro d1
  induction d1 with
  | nil =>
    intro d2 r1 r2 _ hd2 h
    cases d2 with
    | nil =>
      simp only [List.nil_append, List.cons.injEq] at h
      exact ⟨rfl, h.2⟩
    | cons y ys =>
      simp only [List.nil_append, List.cons_append, List.cons.injEq] at h
      have : y.isDigit := hd2 y (List.mem_cons_self y ys)
      rw [← h.1] at this
      rw [this] at hsep
      exact absurd hsep (by simp)
  | cons x xs ih =>
    intro d2 r1 r2 hd1 hd2 h
    cases d2 with
    | nil =>
      simp only [List.cons_append, List.nil_append, List.cons.injEq] at h
      have : x.isDigit := hd1 x (List.mem_cons_self x xs)
      rw [h.1] at this
      rw [this] at hsep
      exact absurd hsep (by simp)
    | cons y ys =>
      simp only [List.cons_append, List.cons.injEq] at h
      obtain ⟨rfl, h2⟩ := h
      obtain ⟨he, hr⟩ := ih ys r1 r2 (fun c hc => hd1 c (List.mem_cons_of_mem x hc))
        (fun c hc => hd2 c (List.mem_cons_of_mem x hc)) h2
      exact ⟨by rw [he], hr⟩

theorem location_key_data (f : Finding) :
    (location_key f).data =
      f.file_path.data ++ ':' ::
        ((Nat.repr f.line_start).data ++ '-' :: (Nat.repr f.line_end).data) := by
  unfold location_key
  simp [String.data_append]

theorem location_key_inj {f g : Finding} (h : location_key f = location_key g) :
    f.file_path = g.file_path ∧ f.line_start = g.line_start ∧ f.line_end = g.line_end := by
  have hd := congrArg String.data h
  rw [location_key_data, location_key_data] at hd
  have hrev := congrArg List.reverse hd
  simp only [List.reverse_append, List.reverse_cons, List.append_assoc,
    List.singleton_append] at hrev
  have hBdig : ∀ (n : Nat) c, c ∈ (Nat.repr n).data.reverse → c.isDigit := by
    intro n c hc
    exact repr_digits n c (List.mem_reverse.mp hc)
  obtain ⟨hB, hrest⟩ := @digit_sep_inj '-' (by decide)
    (Nat.repr f.line_end).data.reverse (Nat.repr g.line_end).data.reverse _ _
    (hBdig f.line_end) (hBdig g.line_end) hrev
  obtain ⟨hA, hF⟩ := @digit_sep_inj ':' (by decide)
    (Nat.repr f.line_start).data.reverse (Nat.repr g.line_start).data.reverse _ _
    (hBdig f.line_start) (hBdig g.line_start) hrest
  refine ⟨?_, ?_, ?_⟩
  · exact String.toList_inj.mp (List.reverse_inj.mp hF)
  · exact repr_inj (String.toList_inj.mp (List.reverse_inj.mp hA))
  · exact repr_inj (String.toList_inj.mp (List.reverse_inj.mp hB))

/-! ### Claim theorems -/

/-- C3: two findings in the Merge Engine's input end up in the same location
group if and only if they have the same `file_path` and the exact same
`(line_start, line_end)` pair; in particular findings on the same file whose
ranges overlap but differ in either endpoint are never grouped (merged). -/
theorem C3_grouping_exact (l : List Finding) (f g : Finding) (hf : f ∈ l) (hg : g ∈ l) :
    ((∃ kg ∈ groupByLocation l, f ∈ kg.2 ∧ g ∈ kg.2) ↔
      (f.file_path = g.file_path ∧ f.line_start = g.line_start ∧
        f.line_end = g.line_end)) ∧
    (findings_overlap f g = true →
      (f.line_start, f.line_end) ≠ (g.line_start, g.line_end) →
      ¬ ∃ kg ∈ groupByLocation l, f ∈ kg.2 ∧ g ∈ kg.2) := by
  have hiff : (∃ kg ∈ groupByLocation l, f ∈ kg.2 ∧ g ∈ kg.2) ↔
      (f.file_path = g.file_path ∧ f.line_start = g.line_start ∧
        f.line_end = g.line_end) := by
    constructor
    · rintro ⟨kg, hkg, hfm, hgm⟩
      have h1 := ((mem_group_iff hkg).mp hfm).2
      have h2 := ((mem_group_iff hkg).mp hgm).2
      exact location_key_inj (h1.trans h2.symm)
    · rintro ⟨hp, hs, he⟩
      obtain ⟨kg, hkg, hfm⟩ := exists_group_of_mem hf
      refine ⟨kg, hkg, hfm, ?_⟩
      rw [mem_group_iff hkg]
      exact ⟨hg, (location_key_congr hp hs he).symm.trans
        ((mem_group_iff hkg).mp hfm).2⟩
  refine ⟨hiff, fun _ hne hgrp => ?_⟩
  obtain ⟨_, hs, he⟩ := hiff.mp hgrp
  exact hne (by rw [hs, he])

/-- C3 witness: a concrete pair with equal file and exact range is grouped. -/
theorem C3_grouping_exact_witness :
    ∃ kg ∈ groupByLocation
        [{ id := "a", file_path := "x.py", line_start := 1, line_end := 2, severity := 3 },
         { id := "b", file_path := "x.py", line_start := 1, line_end := 2, severity := 4 }],
      ({ id := "a", file_path := "x.py", line_start := 1, line_end := 2,
          severity := 3 } : Finding) ∈ kg.2 ∧
      ({ id := "b", file_path := "x.py", line_start := 1, line_end := 2,
          severity := 4 } : Finding) ∈ kg.2 :=
  ((C3_grouping_exact _ _ _ (by decide) (by decide)).1).mpr (by decide)

/-- C2: a merged group's severity is `min(max member severity + 1, 5)`, its
`original_severity` is the pre-boost maximum, its sources are the sorted
distinct contributing task kinds, its merged flag is true, and its title is the
base title prefixed with the sorted three-letter uppercase source prefixes;
severities 3 and 4 at one location yield severity 5 with `original_severity` 4. -/
theorem C2_merge_boost :
    (∀ (f0 f1 : Finding) (rest : List Finding),
      (merge_finding_group (f0 :: f1 :: rest)).severity =
          min (maxSeverity (f0 :: f1 :: rest) + 1) 5 ∧
      (merge_finding_group (f0 :: f1 :: rest)).original_severity =
          some (maxSeverity (f0 :: f1 :: rest)) ∧
      (merge_finding_group (f0 :: f1 :: rest)).merged = true ∧
      List.Sorted strLe (merge_finding_group (f0 :: f1 :: rest)).sources ∧
      (merge_finding_group (f0 :: f1 :: rest)).sources.Nodup ∧
      (∀ s, s ∈ (merge_finding_group (f0 :: f1 :: rest)).sources ↔
        s ∈ (f0 :: f1 :: rest).map sourceOf) ∧
      (merge_finding_group (f0 :: f1 :: rest)).title =
        "[" ++ String.intercalate "+"
            ((merge_finding_group (f0 :: f1 :: rest)).sources.map
              (fun s => pySlice3 (pyUpper s))) ++ "] "
          ++ (pyMaxBySeverity (f0 :: f1 :: rest)).title) ∧
    (merge_overlapping_findings
        [("security",
          [{ id := "a", file_path := "f.py", line_start := 3, line_end := 4,
              severity := 3 }]),
         ("performance",
          [{ id := "b", file_path := "f.py", line_start := 3, line_end := 4,
              severity := 4 }])]).map
        (fun f => (f.severity, f.original_severity, f.merged, f.sources)) =
      [(5, some 4, true, ["performance", "security"])] := by
  constructor
  · intro f0 f1 rest
    have hsev : (merge_finding_group (f0 :: f1 :: rest)).severity =
        min ((pyMaxBySeverity (f0 :: f1 :: rest)).severity + 1) 5 := rfl
    have hperm : List.insertionSort strLe
        (dedupKeepFirst ((f0 :: f1 :: rest).map sourceOf)) ~
        dedupKeepFirst ((f0 :: f1 :: rest).map sourceOf) :=
      List.perm_insertionSort strLe _
    refine ⟨?_, ?_, rfl, ?_, ?_, ?_, rfl⟩
    · rw [hsev, pyMaxBySeverity_severity]
    · show some (pyMaxBySeverity (f0 :: f1 :: rest)).severity = _
      rw [pyMaxBySeverity_severity]
    · exact List.sorted_insertionSort strLe _
    · exact hperm.nodup_iff.mpr (nodup_dedupKeepFirst _)
    · intro s
      show s ∈ List.insertionSort strLe
        (dedupKeepFirst ((f0 :: f1 :: rest).map sourceOf)) ↔ _
      rw [hperm.mem_iff, mem_dedupKeepFirst]
  · decide

theorem countRefs_foldl (fid : String) :
    ∀ (refs : List CrossRef) (a b c : Nat),
      refs.foldl
        (fun acc cr =>
          if cr.target_finding_id = fid then
            if cr.relationship = "reinforce" then (acc.1 + 1, acc.2.1, acc.2.2)
            else if cr.relationship = "extend" then (acc.1, acc.2.1 + 1, acc.2.2)
            else if cr.relationship = "conflict" then (acc.1, acc.2.1, acc.2.2 + 1)
            else acc
          else acc)
        (a, b, c) =
      (a + (refs.filter (fun cr =>
          cr.target_finding_id = fid ∧ cr.relationship = "reinforce")).length,
        b + (refs.filter (fun cr =>
          cr.target_finding_id = fid ∧ cr.relationship = "extend")).length,
        c + (refs.filter (fun cr =>
          cr.target_finding_id = fid ∧ cr.relationship = "conflict")).length) := by
  intro refs
  induction refs with
  | nil => intro a b c; simp
  | cons r t ih =>
    intro a b c
    simp only [List.foldl_cons, List.filter_cons]
    by_cases h1 : r.target_finding_id = fid
    · by_cases h2 : r.relationship = "reinforce"
      · simp only [h1, h2, if_true, ih]
        simp [h1, h2]
        omega
      · by_cases h3 : r.relationship = "extend"
        · simp only [h1, h3, if_true, ih]
          simp [h1, h2, h3]
          omega
        · by_cases h4 : r.relationship = "conflict"
          · simp only [h1, h4, if_true, ih]
            simp [h1, h2, h3, h4]
            omega
          · simp only [h1, if_true, h2, h3, h4, if_false, ih]
            simp [h1, h2, h3, h4]
    · simp only [h1, if_false, ih]
      simp [h1]

theorem countRefs_eq (fid : String) (refs : List CrossRef) :
    countRefs fid refs =
      ((refs.filter (fun cr =>
          cr.target_finding_id = fid ∧ cr.relationship = "reinforce")).length,
        (refs.filter (fun cr =>
          cr.target_finding_id = fid ∧ cr.relationship = "extend")).length,
        (refs.filter (fun cr =>
          cr.target_finding_id = fid ∧ cr.relationship = "conflict")).length) := by
  unfold countRefs
  rw [countRefs_foldl]
  simp

/-- The consensus rule written out over judgment counts (the claim's wording). -/
def consensusRule (finding : Finding) (cross_refs : List CrossRef) : Int :=
  if (cross_refs.filter (fun cr =>
      cr.target_finding_id = finding.id ∧ cr.relationship = "conflict")).length > 0 then
    finding.severity
  else if (cross_refs.filter (fun cr =>
      cr.target_finding_id = finding.id ∧ cr.relationship = "reinforce")).length ≥ 3 then
    min (finding.severity + 2) 5
  else if (cross_refs.filter (fun cr =>
      cr.target_finding_id = finding.id ∧ cr.relationship = "reinforce")).length ≥ 2 then
    min (finding.severity + 1) 5
  else if (cross_refs.filter (fun cr =>
      cr.target_finding_id = finding.id ∧ cr.relationship = "extend")).length ≥ 2 then
    min (finding.severity + 1) 5
  else finding.severity

theorem calculate_eq_consensusRule (finding : Finding) (cross_refs : List CrossRef) :
    calculate_consensus_severity finding cross_refs = consensusRule finding cross_refs := by
  unfold calculate_consensus_severity consensusRule
  by_cases he : cross_refs.isEmpty
  · rw [if_pos he]
    rw [List.isEmpty_iff] at he
    subst he
    simp
  · rw [if_neg he, countRefs_eq]

/-- A judgment whose target id is not this finding's id does not change this
finding's consensus severity. -/
theorem calculate_cons_of_ne (finding : Finding) (j : CrossRef) (js : List CrossRef)
    (hne : j.target_finding_id ≠ finding.id) :
    calculate_consensus_severity finding (j :: js) =
      calculate_consensus_severity finding js := by
  rw [calculate_eq_consensusRule, calculate_eq_consensusRule]
  unfold consensusRule
  simp only [List.filter_cons]
  have h1 : ¬ (j.target_finding_id = finding.id ∧ j.relationship = "reinforce") :=
    fun h => hne h.1
  have h2 : ¬ (j.target_finding_id = finding.id ∧ j.relationship = "extend") :=
    fun h => hne h.1
  have h3 : ¬ (j.target_finding_id = finding.id ∧ j.relationship = "conflict") :=
    fun h => hne h.1
  simp [h1, h2, h3]

/-- A judgment whose target id matches no finding in the list leaves the whole
consensus pass unchanged. -/
theorem apply_consensus_cons_of_ne (findings : List Finding) (j : CrossRef)
    (js : List CrossRef) (hall : ∀ f ∈ findings, j.target_finding_id ≠ f.id) :
    apply_consensus_to_findings findings (j :: js) =
      apply_consensus_to_findings findings js := by
  unfold apply_consensus_to_findings
  refine List.map_congr_left (fun f hf => ?_)
  rw [calculate_cons_of_ne f j js (hall f hf)]

/-- C4: the Consensus Adjuster counts only judgments targeting the finding's
id and applies, in priority order: conflict veto, `+2` for ≥3 reinforcements,
`+1` for ≥2 reinforcements, `+1` for ≥2 extensions, else no change (all boosts
capped at 5); judgments matching no finding have no effect. -/
theorem C4_consensus_rule :
    (∀ (finding : Finding) (cross_refs : List CrossRef),
      calculate_consensus_severity finding cross_refs =
        consensusRule finding cross_refs) ∧
    (∀ (finding : Finding) (j : CrossRef) (js : List CrossRef),
      j.target_finding_id ≠ finding.id →
      calculate_consensus_severity finding (j :: js) =
        calculate_consensus_severity finding js) ∧
    (∀ (findings : List Finding) (j : CrossRef) (js : List CrossRef),
      (∀ f ∈ findings, j.target_finding_id ≠ f.id) →
      apply_consensus_to_findings findings (j :: js) =
        apply_consensus_to_findings findings js) ∧
    calculate_consensus_severity { id := "x", severity := 3 }
        [{ target_finding_id := "x", relationship := "reinforce" },
          { target_finding_id := "x", relationship := "reinforce" },
          { target_finding_id := "x", relationship := "reinforce" },
          { target_finding_id := "x", relationship := "conflict" }] = 3 ∧
    calculate_consensus_severity { id := "x", severity := 3 }
        [{ target_finding_id := "x", relationship := "reinforce" },
          { target_finding_id := "x", relationship := "reinforce" }] = 4 ∧
    calculate_consensus_severity { id := "x", severity := 3 }
        [{ target_finding_id := "x", relationship := "reinforce" },
          { target_finding_id := "x", relationship := "reinforce" },
          { target_finding_id := "x", relationship := "reinforce" }] = 5 := by
  exact ⟨calculate_eq_consensusRule, calculate_cons_of_ne, apply_consensus_cons_of_ne,
    by decide, by decide, by decide⟩

/-- C4 witness: a judgment whose target matches no finding id changes nothing. -/
theorem C4_consensus_rule_witness :
    calculate_consensus_severity { id := "x", severity := 3 }
        [{ target_finding_id := "y", relationship := "reinforce" },
          { target_finding_id := "x", relationship := "reinforce" }] =
      calculate_consensus_severity { id := "x", severity := 3 }
        [{ target_finding_id := "x", relationship := "reinforce" }] :=
  C4_consensus_rule.2.1 { id := "x", severity := 3 }
    { target_finding_id := "y", relationship := "reinforce" }
    [{ target_finding_id := "x", relationship := "reinforce" }] (by decide)

/-- C5: the Merge Engine's output is sorted by severity descending, then
file path ascending, then line start ascending; the sort is stable (pairs of
equal-key findings keep their pre-sort order); and the spec's concrete example
orders as `a:2, a:10, b:1`. -/
theorem C5_merge_ordering :
    (∀ (X : List (String × List Finding)),
      List.Sorted mergeOrder (merge_overlapping_findings X)) ∧
    (∀ (X : List (String × List Finding)) (a b : Finding),
      [a, b] <+ premergeList X →
      a.severity = b.severity → a.file_path = b.file_path →
      a.line_start = b.line_start →
      [a, b] <+ merge_overlapping_findings X) ∧
    (merge_overlapping_findings
        [("security",
          [{ id := "x1", file_path := "b", line_start := 1, line_end := 1, severity := 2 },
           { id := "x2", file_path := "a", line_start := 10, line_end := 10, severity := 5 },
           { id := "x3", file_path := "a", line_start := 2, line_end := 2, severity := 5 }])]).map
        (fun f => (f.file_path, f.line_start)) =
      [("a", 2), ("a", 10), ("b", 1)] := by
  refine ⟨merge_sorted, ?_, by decide⟩
  intro X a b hpair hs hp hl
  rw [merge_eq_sort_premerge]
  exact List.pair_sublist_insertionSort (mergeOrder_of_eq_key hs hp hl) hpair

/-- C5 witness: two findings with equal sort keys (but distinct line ends, so
they are not merged) keep their pre-sort order in the output. -/
theorem C5_merge_ordering_witness :
    [{ id := "u", file_path := "a", line_start := 1, line_end := 1, severity := 3,
        source := "security", sources := ["security"] },
      { id := "v", file_path := "a", line_start := 1, line_end := 2, severity := 3,
        source := "security", sources := ["security"] }] <+
      merge_overlapping_findings
        [("security",
          [{ id := "u", file_path := "a", line_start := 1, line_end := 1, severity := 3 },
           { id := "v", file_path := "a", line_start := 1, line_end := 2, severity := 3 }])] :=
  C5_merge_ordering.2.1 _ _ _ (by decide) (by decide) (by decide) (by decide)

theorem mem_flattenFindings {X : List (String × List Finding)} {f : Finding} :
    f ∈ flattenFindings X ↔ ∃ kv ∈ X, ∃ f0 ∈ kv.2, f = { f0 with source := kv.1 } := by
  constructor
  · intro h
    obtain ⟨kv, hkv, hf⟩ := List.mem_flatMap.mp h
    obtain ⟨f0, hf0, he⟩ := List.mem_map.mp hf
    exact ⟨kv, hkv, f0, hf0, he.symm⟩
  · rintro ⟨kv, hkv, f0, hf0, rfl⟩
    exact List.mem_flatMap.mpr ⟨kv, hkv, List.mem_map.mpr ⟨f0, hf0, rfl⟩⟩

theorem mem_merge {X : List (String × List Finding)} {g : Finding}
    (hg : g ∈ merge_overlapping_findings X) :
    ∃ kg ∈ groupByLocation (flattenFindings X), g = mergeGroup kg := by
  rw [merge_eq_sort_premerge] at hg
  have hmem := (List.perm_insertionSort mergeOrder (premergeList X)).mem_iff.mp hg
  obtain ⟨kg, hkg, he⟩ := List.mem_map.mp hmem
  exact ⟨kg, hkg, he.symm⟩

theorem mergeGroup_severity_bound {l : List Finding} {kg : String × List Finding}
    (hkg : kg ∈ groupByLocation l)
    (hb : ∀ f ∈ l, 1 ≤ f.severity ∧ f.severity ≤ 5) :
    1 ≤ (mergeGroup kg).severity ∧ (mergeGroup kg).severity ≤ 5 := by
  rcases hm : kg.2 with _ | ⟨f, _ | ⟨g, t2⟩⟩
  · exact absurd hm (group_nonempty hkg)
  · have hf : f ∈ kg.2 := by
      rw [hm]
      exact List.mem_singleton_self f
    have hbf := hb f ((mem_group_iff hkg).mp hf).1
    have hsev : (mergeGroup kg).severity = f.severity := by
      simp only [mergeGroup, hm]
    rw [hsev]
    exact hbf
  · have hbase : pyMaxBySeverity (f :: g :: t2) ∈ kg.2 := by
      rw [hm]
      exact pyMaxBySeverity_mem (by simp)
    have hbb := hb _ ((mem_group_iff hkg).mp hbase).1
    have hsev : (mergeGroup kg).severity =
        min ((pyMaxBySeverity (f :: g :: t2)).severity + 1) 5 := by
      simp only [mergeGroup, hm]
      rfl
    rw [hsev]
    omega

/-- C6: severities that start in [1,5] stay in [1,5] through the merge boost,
through any single consensus adjustment, and through any sequence of consensus
adjustment passes. -/
theorem C6_severity_bounds :
    (∀ (X : List (String × List Finding)),
      (∀ kv ∈ X, ∀ f ∈ kv.2, 1 ≤ f.severity ∧ f.severity ≤ 5) →
      ∀ g ∈ merge_overlapping_findings X, 1 ≤ g.severity ∧ g.severity ≤ 5) ∧
    (∀ (f : Finding) (js : List CrossRef), 1 ≤ f.severity → f.severity ≤ 5 →
      1 ≤ calculate_consensus_severity f js ∧ calculate_consensus_severity f js ≤ 5) ∧
    (∀ (l : List Finding) (jss : List (List CrossRef)),
      (∀ f ∈ l, 1 ≤ f.severity ∧ f.severity ≤ 5) →
      ∀ g ∈ jss.foldl (fun acc js => apply_consensus_to_findings acc js) l,
        1 ≤ g.severity ∧ g.severity ≤ 5) := by
  have hcalc : ∀ (f : Finding) (js : List CrossRef), 1 ≤ f.severity → f.severity ≤ 5 →
      1 ≤ calculate_consensus_severity f js ∧ calculate_consensus_severity f js ≤ 5 := by
    intro f js h1 h5
    rw [calculate_eq_consensusRule]
    unfold consensusRule
    split_ifs <;> constructor <;> omega
  have hstep : ∀ (l : List Finding) (js : List CrossRef),
      (∀ f ∈ l, 1 ≤ f.severity ∧ f.severity ≤ 5) →
      ∀ g ∈ apply_consensus_to_findings l js, 1 ≤ g.severity ∧ g.severity ≤ 5 := by
    intro l js hl g hg
    unfold apply_consensus_to_findings at hg
    obtain ⟨f, hf, rfl⟩ := List.mem_map.mp hg
    have hb := hcalc f js (hl f hf).1 (hl f hf).2
    by_cases hc : calculate_consensus_severity f js ≠ f.severity
    · rw [if_pos hc]
      exact hb
    · rw [if_neg hc]
      exact hb
  refine ⟨?_, hcalc, ?_⟩
  · intro X hX g hg
    obtain ⟨kg, hkg, rfl⟩ := mem_merge hg
    apply mergeGroup_severity_bound hkg
    intro f hf
    obtain ⟨kv, hkv, f0, hf0, rfl⟩ := mem_flattenFindings.mp hf
    exact hX kv hkv f0 hf0
  · intro l jss
    induction jss generalizing l with
    | nil =>
      intro hl g hg
      exact hl g hg
    | cons js t ih =>
      intro hl
      simp only [List.foldl_cons]
      exact ih _ (hstep l js hl)

/-- C6 witness: a bounded severity stays bounded under a concrete adjustment. -/
theorem C6_severity_bounds_witness :
    1 ≤ calculate_consensus_severity { id := "x", severity := 5 }
        [{ target_finding_id := "x", relationship := "reinforce" },
          { target_finding_id := "x", relationship := "reinforce" }] ∧
      calculate_consensus_severity { id := "x", severity := 5 }
        [{ target_finding_id := "x", relationship := "reinforce" },
          { target_finding_id := "x", relationship := "reinforce" }] ≤ 5 :=
  C6_severity_bounds.2.1 { id := "x", severity := 5 } _ (by decide) (by decide)

theorem filter_key_eq_of_nodup_keys :
    ∀ (l : List Finding), ((l.map location_key).Nodup) → ∀ f ∈ l,
      l.filter (fun g => location_key g = location_key f) = [f] := by
  intro l
  induction l with
  | nil => intro _ f hf; exact absurd hf (List.not_mem_nil f)
  | cons a t ih =>
    intro hnd f hf
    simp only [List.map_cons, List.nodup_cons] at hnd
    rcases List.mem_cons.mp hf with rfl | hf
    · rw [List.filter_cons_of_pos (by simp)]
      have : t.filter (fun g => location_key g = location_key f) = [] := by
        rw [List.filter_eq_nil_iff]
        intro g hg
        simp only [decide_eq_true_eq]
        intro he
        exact hnd.1 (he ▸ List.mem_map.mpr ⟨g, hg, rfl⟩)
      rw [this]
    · have hne : location_key a ≠ location_key f :=
        fun he => hnd.1 (he ▸ List.mem_map.mpr ⟨f, hf, rfl⟩)
      rw [List.filter_cons_of_neg (by simpa using hne), ih hnd.2 f hf]

theorem groups_of_nodup_keys {l : List Finding} (h : (l.map location_key).Nodup) :
    groupByLocation l = l.map (fun f => (location_key f, [f])) := by
  unfold groupByLocation
  rw [dedupKeepFirst_eq_self h, List.map_map]
  refine List.map_congr_left (fun f hf => ?_)
  simp only [Function.comp_apply]
  rw [filter_key_eq_of_nodup_keys l h f hf]

/-- C7 counterexample: feeding the Merge Engine's output back through the
engine is not the identity — a finding merged on the first pass comes out with
`merged = false` (and its sources reset) on the second pass. -/
theorem C7_not_idempotent :
    merge_overlapping_findings
        [("security",
          merge_overlapping_findings
            [("security",
              [{ id := "a", file_path := "f.py", line_start := 3, line_end := 4,
                  severity := 3 }]),
             ("performance",
              [{ id := "b", file_path := "f.py", line_start := 3, line_end := 4,
                  severity := 4 }])])] ≠
      merge_overlapping_findings
        [("security",
          [{ id := "a", file_path := "f.py", line_start := 3, line_end := 4,
              severity := 3 }]),
         ("performance",
          [{ id := "b", file_path := "f.py", line_start := 3, line_end := 4,
              severity := 4 }])] := by
  decide

/-- C7 (amended): re-running the Merge Engine on its own output (wrapped under
one task kind `k`) preserves every finding and the order exactly, except that
each finding's `_source` is overwritten with `k`, its `_sources` becomes `[k]`,
and its merged flag is reset to `false`. -/
theorem C7_merge_second_pass (k : String) (X : List (String × List Finding)) :
    merge_overlapping_findings [(k, merge_overlapping_findings X)] =
      (merge_overlapping_findings X).map
        (fun f => { f with source := k, sources := [k], merged := false }) := by
  have hflat : flattenFindings [(k, merge_overlapping_findings X)] =
      (merge_overlapping_findings X).map (fun f => { f with source := k }) := by
    unfold flattenFindings
    simp
  have hkeys : (((merge_overlapping_findings X).map
      (fun f => { f with source := k })).map location_key).Nodup := by
    have he : ((merge_overlapping_findings X).map
        (fun f => { f with source := k })).map location_key =
        (merge_overlapping_findings X).map location_key := by
      rw [List.map_map]
      exact List.map_congr_left (fun f _ => rfl)
    rw [he]
    exact merge_keys_nodup X
  have hpre : premergeList [(k, merge_overlapping_findings X)] =
      (merge_overlapping_findings X).map
        (fun f => { f with source := k, sources := [k], merged := false }) := by
    unfold premergeList
    rw [hflat, groups_of_nodup_keys hkeys, List.map_map, List.map_map]
    exact List.map_congr_left (fun f _ => rfl)
  rw [merge_eq_sort_premerge, hpre]
  apply List.Sorted.insertionSort_eq
  show List.Pairwise mergeOrder _
  rw [List.pairwise_map]
  exact (merge_sorted X).imp (fun h => h)

theorem runAll_foldl (o : String → AgentOutcome) :
    ∀ (kinds : List String) (acc : List (String × FindingsData)),
      (∀ k ∈ kinds, k ∉ acc.map Prod.fst) → kinds.Nodup →
      kinds.foldl (fun acc k => assocUpsert acc k (dispatchResult k o)) acc =
        acc ++ kinds.map (fun k => (k, dispatchResult k o)) := by
  intro kinds
  induction kinds with
  | nil => intro acc _ _; simp
  | cons k t ih =>
    intro acc hdisj hnd
    simp only [List.foldl_cons]
    have hk : k ∉ acc.map Prod.fst := hdisj k (List.mem_cons_self k t)
    have hup : assocUpsert acc k (dispatchResult k o) = acc ++ [(k, dispatchResult k o)] := by
      unfold assocUpsert
      rw [if_neg hk]
    rw [hup]
    rw [List.nodup_cons] at hnd
    rw [ih (acc ++ [(k, dispatchResult k o)])
      (by
        intro k' hk'
        simp only [List.map_append, List.mem_append, not_or]
        refine ⟨fun hc => hdisj k' (List.mem_cons_of_mem k hk') hc, ?_⟩
        simp only [List.map_cons, List.map_nil, List.mem_singleton]
        exact fun he => hnd.1 (he ▸ hk'))
      hnd.2]
    simp

theorem run_all_agents_eq (kinds : List String) (o : String → AgentOutcome)
    (hnd : kinds.Nodup) :
    run_all_agents kinds o = kinds.map (fun k => (k, dispatchResult k o)) := by
  unfold run_all_agents
  rw [runAll_foldl o kinds [] (by simp) hnd]
  simp

theorem assocGet_map (r : String → FindingsData) :
    ∀ (kinds : List String) (k : String), k ∈ kinds →
      assocGet (kinds.map (fun k => (k, r k))) k = some (r k) := by
  intro kinds
  induction kinds with
  | nil => intro k hk; exact absurd hk (List.not_mem_nil k)
  | cons a t ih =>
    intro k hk
    unfold assocGet
    simp only [List.map_cons]
    by_cases ha : a = k
    · subst ha
      rw [List.find?_cons_of_pos _ (by simp)]
      rfl
    · rw [List.find?_cons_of_neg _ (by simpa using ha)]
      rcases List.mem_cons.mp hk with rfl | hk
      · exact absurd rfl ha
      · exact ih k hk

/-- C8: the dispatcher returns exactly one result per dispatched kind, in
dispatch order; a backend failure, a parse failure or an unknown kind degrades
that kind's result to an empty finding list with an error summary (no
exception escapes — `run_all_agents` is total); and one kind's outcome never
affects another kind's result. -/
theorem C8_dispatcher (kinds : List String) (o o' : String → AgentOutcome)
    (hnd : kinds.Nodup) :
    (run_all_agents kinds o).map Prod.fst = kinds ∧
    (∀ k ∈ kinds, assocGet (run_all_agents kinds o) k = some (dispatchResult k o)) ∧
    (∀ k ∈ kinds, k ∈ AGENT_KINDS → ∀ e, o k = AgentOutcome.parseError e →
      assocGet (run_all_agents kinds o) k =
        some { findings := [], summary := "Error parsing response: " ++ e }) ∧
    (∀ k ∈ kinds, k ∈ AGENT_KINDS → ∀ e, o k = AgentOutcome.backendError e →
      assocGet (run_all_agents kinds o) k =
        some { findings := [], summary := "Error: " ++ e }) ∧
    (∀ k ∈ kinds, k ∉ AGENT_KINDS →
      assocGet (run_all_agents kinds o) k =
        some { findings := [], summary := "Error: " ++ ("Unknown agent type: " ++ k) }) ∧
    (∀ k0 : String, (∀ k, k ≠ k0 → o k = o' k) → ∀ k ∈ kinds, k ≠ k0 →
      assocGet (run_all_agents kinds o) k = assocGet (run_all_agents kinds o') k) := by
  have hget : ∀ k ∈ kinds, assocGet (run_all_agents kinds o) k =
      some (dispatchResult k o) := by
    intro k hk
    rw [run_all_agents_eq kinds o hnd]
    exact assocGet_map _ kinds k hk
  refine ⟨?_, hget, ?_, ?_, ?_, ?_⟩
  · rw [run_all_agents_eq kinds o hnd, List.map_map]
    exact List.map_id _
  · intro k hk hkin e ho
    rw [hget k hk]
    have hra : run_agent k o =
        Except.ok { findings := [], summary := "Error parsing response: " ++ e } := by
      unfold run_agent
      rw [if_neg (by simpa using hkin), ho]
      rfl
    unfold dispatchResult
    rw [hra]
  · intro k hk hkin e ho
    rw [hget k hk]
    have hra : run_agent k o =
        Except.ok { findings := [], summary := "Error: " ++ e } := by
      unfold run_agent
      rw [if_neg (by simpa using hkin), ho]
      rfl
    unfold dispatchResult
    rw [hra]
  · intro k hk hkout
    rw [hget k hk]
    have hra : run_agent k o = Except.error ("Unknown agent type: " ++ k) := by
      unfold run_agent
      rw [if_pos hkout]
    unfold dispatchResult
    rw [hra]
  · intro k0 hagree k hk hne
    rw [hget k hk, run_all_agents_eq kinds o' hnd, assocGet_map _ kinds k hk]
    have : dispatchResult k o = dispatchResult k o' := by
      unfold dispatchResult run_agent
      rw [hagree k hne]
    rw [this]

/-- C8 witness: with every backend call failing to parse, the security kind's
result degrades to an empty list with the captured parse-error summary. -/
theorem C8_dispatcher_witness :
    assocGet
        (run_all_agents AGENT_KINDS (fun _ => AgentOutcome.parseError "boom"))
        "security" =
      some { findings := [], summary := "Error parsing response: " ++ "boom" } :=
  (C8_dispatcher AGENT_KINDS (fun _ => AgentOutcome.parseError "boom")
      (fun _ => AgentOutcome.parseError "boom") (by decide)).2.2.1
    "security" (by decide) (by decide) "boom" rfl

theorem length_filter_cons (f : Finding) (t : List Finding) (p : Finding → Bool) :
    ((f :: t).filter p).length = (if p f = true then 1 else 0) + (t.filter p).length := by
  by_cases h : p f = true
  · rw [List.filter_cons_of_pos h, if_pos h, List.length_cons]
    omega
  · rw [List.filter_cons_of_neg h, if_neg h]
    omega

theorem bucket_length_sum (fs : List Finding) :
    (criticalOf fs).length + (mediumOf fs).length + (lowOf fs).length = fs.length := by
  unfold criticalOf mediumOf lowOf
  induction fs with
  | nil => rfl
  | cons f t ih =>
    rw [length_filter_cons, length_filter_cons, length_filter_cons, List.length_cons]
    by_cases h4 : (4 : Int) ≤ f.severity
    · rw [if_pos (by simp [h4]), if_neg (by simp; omega), if_neg (by simp; omega)]
      omega
    · by_cases h2 : (2 : Int) ≤ f.severity
      · rw [if_neg (by simp; omega), if_pos (by simp; omega), if_neg (by simp; omega)]
        omega
      · rw [if_neg (by simp; omega), if_neg (by simp; omega), if_pos (by simp; omega)]
        omega

/-- C9: the Report Synthesizer partitions findings into exactly three severity
buckets (≥4, 2-3, <2), every finding falling in exactly one; each bucket is a
sublist of the input (order preserved, no re-sorting); the three bucket sizes
sum to the total; and the rendered line list is the header, the three sections
in that order (each omitted when empty), the no-issues notice exactly when the
finding list is empty, and the summary table whose rows carry the bucket sizes
and the total. -/
theorem C9_report_structure (pr_title pr_url : String) (findings : List Finding)
    (agents_completed : List String) (duration_ms : Nat) :
    (∀ f : Finding,
      ((4 : Int) ≤ f.severity ∧ ¬ ((2 : Int) ≤ f.severity ∧ f.severity < 4) ∧
          ¬ (f.severity < 2)) ∨
      (¬ ((4 : Int) ≤ f.severity) ∧ ((2 : Int) ≤ f.severity ∧ f.severity < 4) ∧
          ¬ (f.severity < 2)) ∨
      (¬ ((4 : Int) ≤ f.severity) ∧ ¬ ((2 : Int) ≤ f.severity ∧ f.severity < 4) ∧
          f.severity < 2)) ∧
    (criticalOf findings <+ findings ∧ mediumOf findings <+ findings ∧
      lowOf findings <+ findings) ∧
    ((criticalOf findings).length + (mediumOf findings).length +
        (lowOf findings).length = findings.length) ∧
    (synthLines pr_title pr_url findings agents_completed duration_ms =
      ["## 🔍 Convergence Code Review",
        "",
        "**PR:** [" ++ pr_title ++ "](" ++ pr_url ++ ")",
        "**Analyzed by:** " ++ Nat.repr agents_completed.length ++ " agents in "
          ++ durStr duration_ms ++ "s",
        "",
        "---",
        ""]
      ++ (if (criticalOf findings).isEmpty then []
          else ("### 🚨 Critical Issues (" ++ Nat.repr (criticalOf findings).length
              ++ ")") :: "" :: (criticalOf findings).flatMap format_finding_markdown)
      ++ (if (mediumOf findings).isEmpty then []
          else ("### ⚠️ Recommendations (" ++ Nat.repr (mediumOf findings).length
              ++ ")") :: "" :: (mediumOf findings).flatMap format_finding_markdown)
      ++ (if (lowOf findings).isEmpty then []
          else ("### 💡 Suggestions (" ++ Nat.repr (lowOf findings).length
              ++ ")") :: "" :: (lowOf findings).flatMap format_finding_markdown)
      ++ (if findings.isEmpty then
            ["### ✅ No Issues Found",
              "",
              "This PR looks good! No significant issues detected by our analysis.",
              ""]
          else [])
      ++ ["---",
        "",
        "### 📊 Summary",
        "",
        "| Severity | Count |",
        "|----------|-------|",
        "| 🚨 Critical/High | " ++ Nat.repr (criticalOf findings).length ++ " |",
        "| ⚠️ Medium | " ++ Nat.repr (mediumOf findings).length ++ " |",
        "| 💡 Low/Info | " ++ Nat.repr (lowOf findings).length ++ " |",
        "| **Total** | **" ++ Nat.repr findings.length ++ "** |",
        "",
        "---",
        "",
        "<sub>🤖 Reviewed by **Convergence** • Agents: ["
          ++ String.intercalate ", " (agents_completed.map pyTitle) ++ "] • "
          ++ durStr duration_ms ++ "s</sub>"]) := by
  refine ⟨fun f => by omega,
    ⟨List.filter_sublist findings, List.filter_sublist findings,
      List.filter_sublist findings⟩,
    bucket_length_sum findings, rfl⟩

theorem group_shape {l : List Finding} {kg : String × List Finding}
    (hkg : kg ∈ groupByLocation l) :
    kg.2 = l.filter (fun f => location_key f = kg.1) := by
  unfold groupByLocation at hkg
  obtain ⟨k, _, rfl⟩ := List.mem_map.mp hkg
  rfl

/-- C10 counterexample: finding ids are only unique per task, so a judgment
whose target is a merged-away member's original id can still match (and boost)
an unrelated finding that reused that id — it is not inert.  Here `x-1` names
both members of a merged pair and a third, surviving singleton. -/
theorem C10_id_collision :
    (∃ kg ∈ groupByLocation (flattenFindings
        [("security",
          [{ id := "x-1", file_path := "a", line_start := 1, line_end := 1,
              severity := 3 }]),
         ("performance",
          [{ id := "x-1", file_path := "a", line_start := 1, line_end := 1,
              severity := 3 }]),
         ("testing",
          [{ id := "x-1", file_path := "b", line_start := 2, line_end := 2,
              severity := 3 }])]),
      2 ≤ kg.2.length ∧ "x-1" ∈ kg.2.map (fun f => f.id)) ∧
    apply_consensus_to_findings
        (merge_overlapping_findings
          [("security",
            [{ id := "x-1", file_path := "a", line_start := 1, line_end := 1,
                severity := 3 }]),
           ("performance",
            [{ id := "x-1", file_path := "a", line_start := 1, line_end := 1,
                severity := 3 }]),
           ("testing",
            [{ id := "x-1", file_path := "b", line_start := 2, line_end := 2,
                severity := 3 }])])
        [{ target_finding_id := "x-1", relationship := "reinforce" },
          { target_finding_id := "x-1", relationship := "reinforce" }] ≠
      apply_consensus_to_findings
        (merge_overlapping_findings
          [("security",
            [{ id := "x-1", file_path := "a", line_start := 1, line_end := 1,
                severity := 3 }]),
           ("performance",
            [{ id := "x-1", file_path := "a", line_start := 1, line_end := 1,
                severity := 3 }]),
           ("testing",
            [{ id := "x-1", file_path := "b", line_start := 2, line_end := 2,
                severity := 3 }])])
        [] := by
  constructor
  · decide
  · decide

/-- C10 (amended): when the flattened findings have pairwise distinct ids and
no id is `"merged-"` prepended to another id, every merged group's members'
original ids match no finding in the merge output, a judgment targeting such
an id leaves the consensus pass unchanged, and a merged (boosted) finding's id
never equals any original id — so only never-merged findings can receive a
consensus boost or veto via their original ids. -/
theorem C10_merged_ids (X : List (String × List Finding)) (t : String)
    (hnd : ((flattenFindings X).map (fun f => f.id)).Nodup)
    (hpre : ∀ f ∈ flattenFindings X, ∀ g ∈ flattenFindings X,
      f.id ≠ "merged-" ++ g.id)
    (ht : ∃ kg ∈ groupByLocation (flattenFindings X),
      2 ≤ kg.2.length ∧ t ∈ kg.2.map (fun f => f.id)) :
    (∀ g ∈ merge_overlapping_findings X, g.id ≠ t) ∧
    (∀ (j : CrossRef) (js : List CrossRef), j.target_finding_id = t →
      apply_consensus_to_findings (merge_overlapping_findings X) (j :: js) =
        apply_consensus_to_findings (merge_overlapping_findings X) js) ∧
    (∀ g ∈ merge_overlapping_findings X, g.merged = true →
      ∀ f ∈ flattenFindings X, g.id ≠ f.id) := by
  obtain ⟨kgt, hkgt, hlen, htid⟩ := ht
  obtain ⟨m, hm, rfl⟩ := List.mem_map.mp htid
  have hmflat : m ∈ flattenFindings X := ((mem_group_iff hkgt).mp hm).1
  have hmerged_id : ∀ g ∈ merge_overlapping_findings X, g.merged = true →
      ∀ f ∈ flattenFindings X, g.id ≠ f.id := by
    intro g hg hgm f hf
    obtain ⟨kg, hkg, rfl⟩ := mem_merge hg
    rcases hsh : kg.2 with _ | ⟨a, _ | ⟨b, t2⟩⟩
    · exact absurd hsh (group_nonempty hkg)
    · have : (mergeGroup kg).merged = false := by
        simp only [mergeGroup, hsh]
      rw [this] at hgm
      exact absurd hgm (by simp)
    · have hid : (mergeGroup kg).id = "merged-" ++ (pyMaxBySeverity (a :: b :: t2)).id := by
        simp only [mergeGroup, hsh]
        rfl
      have hbase : pyMaxBySeverity (a :: b :: t2) ∈ kg.2 := by
        rw [hsh]
        exact pyMaxBySeverity_mem (by simp)
      have hbflat : pyMaxBySeverity (a :: b :: t2) ∈ flattenFindings X :=
        ((mem_group_iff hkg).mp hbase).1
      rw [hid]
      exact fun he => hpre f hf _ hbflat he.symm
  have hno : ∀ g ∈ merge_overlapping_findings X, g.id ≠ m.id := by
    intro g hg
    obtain ⟨kg, hkg, rfl⟩ := mem_merge hg
    rcases hsh : kg.2 with _ | ⟨a, _ | ⟨b, t2⟩⟩
    · exact absurd hsh (group_nonempty hkg)
    · have hidg : (mergeGroup kg).id = a.id := by
        simp only [mergeGroup, hsh]
      have haf : a ∈ kg.2 := by
        rw [hsh]
        exact List.mem_singleton_self a
      have haflat : a ∈ flattenFindings X := ((mem_group_iff hkg).mp haf).1
      rw [hidg]
      intro he
      have hameq : a = m :=
        List.inj_on_of_nodup_map hnd haflat hmflat he
      have hker : kg.1 = kgt.1 := by
        rw [← ((mem_group_iff hkg).mp haf).2, hameq,
          ((mem_group_iff hkgt).mp hm).2]
      have h2 : kg.2 = kgt.2 := by
        rw [group_shape hkg, group_shape hkgt, hker]
      rw [hsh] at h2
      rw [← h2] at hlen
      simp at hlen
    · have hid : (mergeGroup kg).id = "merged-" ++ (pyMaxBySeverity (a :: b :: t2)).id := by
        simp only [mergeGroup, hsh]
        rfl
      have hbase : pyMaxBySeverity (a :: b :: t2) ∈ kg.2 := by
        rw [hsh]
        exact pyMaxBySeverity_mem (by simp)
      have hbflat : pyMaxBySeverity (a :: b :: t2) ∈ flattenFindings X :=
        ((mem_group_iff hkg).mp hbase).1
      rw [hid]
      exact fun he => hpre m hmflat _ hbflat he.symm
  refine ⟨hno, ?_, hmerged_id⟩
  intro j js hj
  refine apply_consensus_cons_of_ne _ j js (fun g hg => ?_)
  rw [hj]
  exact fun he => hno g hg he.symm

/-- C10 witness: with globally distinct ids, a judgment targeting a merged
member's original id leaves the consensus pass unchanged. -/
theorem C10_merged_ids_witness :
    apply_consensus_to_findings
        (merge_overlapping_findings
          [("security",
            [{ id := "sec-001", file_path := "a", line_start := 1, line_end := 1,
                severity := 3 }]),
           ("performance",
            [{ id := "per-001", file_path := "a", line_start := 1, line_end := 1,
                severity := 4 }])])
        [{ target_finding_id := "sec-001", relationship := "reinforce" }] =
      apply_consensus_to_findings
        (merge_overlapping_findings
          [("security",
            [{ id := "sec-001", file_path := "a", line_start := 1, line_end := 1,
                severity := 3 }]),
           ("performance",
            [{ id := "per-001", file_path := "a", line_start := 1, line_end := 1,
                severity := 4 }])])
        [] :=
  (C10_merged_ids
      [("security",
        [{ id := "sec-001", file_path := "a", line_start := 1, line_end := 1,
            severity := 3 }]),
       ("performance",
        [{ id := "per-001", file_path := "a", line_start := 1, line_end := 1,
            severity := 4 }])]
      "sec-001" (by decide) (by decide) (by decide)).2.1
    { target_finding_id := "sec-001", relationship := "reinforce" } [] rfl

set_option maxRecDepth 100000 in
set_option maxHeartbeats 2000000 in
/-- C1 counterexample: `orchestrate_review` renders the merely-merged findings,
not the consensus-adjusted ones.  With one severity-3 finding and two
`reinforce` judgments targeting it, the consensus-adjusted rendering (severity
4, critical section) differs from what the orchestrator actually produces
(severity 3, recommendations section) — the cross-validation round and the
Consensus Adjuster are never invoked on the orchestration path. -/
theorem C1_renders_unadjusted :
    (orchestrate_review "t" "u"
        [("security",
          { findings :=
              [{ id := "sec-001", file_path := "a.py", line_start := 1, line_end := 2,
                  severity := 3, title := "SQLi" }],
            summary := "s" })]
        1500).review_markdown ≠
      synthesize_markdown "t" "u"
        (apply_consensus_to_findings
          (merge_overlapping_findings
            [("security",
              [{ id := "sec-001", file_path := "a.py", line_start := 1, line_end := 2,
                  severity := 3, title := "SQLi" }])])
          [{ target_finding_id := "sec-001", relationship := "reinforce" },
            { target_finding_id := "sec-001", relationship := "reinforce" }])
        ["security"] 1500 := by
  decide

set_option maxHeartbeats 2000000 in
/-- C1 (amended): past the dispatcher, the orchestration entry point runs
exactly merge → synthesize: the persisted findings are the Merge Engine's
output, the report is rendered from those merged (never consensus-adjusted)
findings, the review disposition is `REQUEST_CHANGES` exactly when some merged
finding has severity ≥ 4, and the session statuses written are `converging`
then `complete`.  The Cross-Validation Round and the Consensus Adjuster are
not part of this control flow. -/
theorem C1_pipeline_order (pr_title pr_url : String)
    (agent_results : List (String × FindingsData)) (duration_ms : Nat) :
    (orchestrate_review pr_title pr_url agent_results duration_ms).merged_findings =
      merge_overlapping_findings
        (agent_results.map (fun kv => (kv.1, kv.2.findings))) ∧
    (orchestrate_review pr_title pr_url agent_results duration_ms).review_markdown =
      synthesize_markdown pr_title pr_url
        (merge_overlapping_findings
          (agent_results.map (fun kv => (kv.1, kv.2.findings))))
        (agent_results.map Prod.fst) duration_ms ∧
    ((orchestrate_review pr_title pr_url agent_results duration_ms).event =
        "REQUEST_CHANGES" ↔
      ∃ f ∈ merge_overlapping_findings
          (agent_results.map (fun kv => (kv.1, kv.2.findings))),
        4 ≤ f.severity) ∧
    (orchestrate_review pr_title pr_url agent_results duration_ms).statuses =
      ["converging", "complete"] := by
  refine ⟨rfl, rfl, ?_, rfl⟩
  unfold orchestrate_review
  by_cases h : ((merge_overlapping_findings
      (agent_results.map (fun kv => (kv.1, kv.2.findings)))).filter
        (fun f => 4 ≤ f.severity)).length > 0
  · simp only [h, if_pos h]
    constructor
    · intro _
      obtain ⟨x, hx⟩ := List.exists_mem_of_ne_nil _ (List.ne_nil_of_length_pos h)
      exact ⟨x, (List.mem_filter.mp hx).1, by simpa using (List.mem_filter.mp hx).2⟩
    · intro _
      rfl
  · simp only [h, if_neg h]
    constructor
    · intro he
      exact absurd he (by decide)
    · rintro ⟨f, hf, hsev⟩
      exfalso
      apply h
      have : f ∈ (merge_overlapping_findings
          (agent_results.map (fun kv => (kv.1, kv.2.findings)))).filter
            (fun f => 4 ≤ f.severity) :=
        List.mem_filter.mpr ⟨hf, by simpa using hsev⟩
      exact List.length_pos_of_mem this

end Convergence
